import Mathlib

/-!
Verification of the scanner / parser / evaluator pipeline of
piotr-roslaniec/codecrafters-interpreter-rust.

Shallow embedding notes:
* Rust `String` is valid UTF-8; we model a source string as its list of
  Unicode scalar values (`List Char`) and derive its byte representation
  (`strBytes`) by UTF-8 encoding, because the scanner mixes *byte* indices
  (`source.len()`, `source.as_bytes()[n]`, byte-range slicing) with *char*
  indices (`source.chars().nth(current)` in `Scanner::advance`).
* `f64` literals and arithmetic are modeled by exact rationals (`ℚ`).  Every
  number appearing in a theorem below is exactly representable in `f64`
  (small integers), so no statement depends on rounding, NaN, or division
  by zero.
* Rust panics (`unwrap`, `expect`, out-of-bounds indexing / slicing) are
  modeled explicitly as a `panic` result constructor.
* Loops are modeled by fuel (structural recursion on `Nat`), so that all
  definitions compute by kernel reduction; the driver `scanSource` supplies
  `(strBytes src).length + 1` fuel, which is proved sufficient below.
-/

namespace LoxSpec

/-- TokenType from src/lexer.rs.  Keyword variants are prefixed with `kw`
because names such as `class`, `if`, `fun` are Lean keywords. -/
inductive TokenType where
  | leftParen | rightParen | leftBrace | rightBrace | comma | dot | minus | plus
  | semicolon | slash | star
  | bang | bangEqual | equal | equalEqual | greater | greaterEqual | less | lessEqual
  | identifier | string | number
  | kwAnd | kwClass | kwElse | kwFalse | kwFun | kwFor | kwIf | kwNil
  | kwOr | kwPrint | kwReturn | kwSuper | kwThis | kwTrue | kwVar | kwWhile
  | eof
deriving DecidableEq

/-- Literal from src/lexer.rs.  `String` payloads are UTF-8 byte lists,
`f64` payloads are exact rationals (see file header). -/
inductive Literal where
  | str (s : List Nat)
  | num (q : ℚ)
  | null
  | boolean (b : Bool)
deriving DecidableEq

/-- Token from src/lexer.rs (`token_type`, `lexeme`, `literal`, `line`). -/
structure Token where
  token_type : TokenType
  lexeme : List Nat
  literal : Option Literal
  line : Nat
deriving DecidableEq

/-- Location part of a reporter entry: `Reporter::report` receives `""`,
`" at the end"` or `" at '<lexeme>'"`. -/
inductive ErrLoc where
  | empty
  | atEnd
  | atLexeme (lexeme : List Nat)
deriving DecidableEq

/-- Message part of a reporter entry; one constructor per `format!` template
appearing in the scanner, plus `text` for the parser's literal messages. -/
inductive ErrMsg where
  | unexpectedChar (c : Char)
  | invalidUtf8 (pos : Nat)
  | unterminatedString
  | text (s : String)
deriving DecidableEq

/-- One entry of `Reporter::errors`: `report(line, location, message)`
pushes the formatted combination of these three fields. -/
structure Report where
  line : Nat
  loc : ErrLoc
  msg : ErrMsg
deriving DecidableEq

/-- UTF-8 encoding of one Unicode scalar value (1 to 4 bytes). -/
def utf8Bytes (c : Char) : List Nat :=
  let n := c.toNat
  if n < 0x80 then [n]
  else if n < 0x800 then [0xC0 + n / 64, 0x80 + n % 64]
  else if n < 0x10000 then [0xE0 + n / 4096, 0x80 + n / 64 % 64, 0x80 + n % 64]
  else [0xF0 + n / 262144, 0x80 + n / 4096 % 64, 0x80 + n / 64 % 64, 0x80 + n % 64]

/-- Byte representation of a Rust `String` whose chars are `s`. -/
def strBytes (s : List Char) : List Nat := (s.map utf8Bytes).flatten

/-- Model of Rust `char::is_numeric` (Unicode Nd/Nl/No), exact for all code
points below `0x100`: ASCII digits plus the Latin-1 numerics
`² ³ ¹ ¼ ½ ¾`.  Every theorem below only exercises chars below `0x100`. -/
def rustIsNumeric (c : Char) : Bool :=
  (0x30 ≤ c.toNat && c.toNat ≤ 0x39) ||
    [0xB2, 0xB3, 0xB9, 0xBC, 0xBD, 0xBE].contains c.toNat

/-- Model of Rust `char::is_alphanumeric` (alphabetic or numeric), exact for
all code points below `0x100`: ASCII letters and digits plus the Latin-1
letters (`ª µ º`, `À`-`Ö`, `Ø`-`ö`, `ø`-`ÿ`) and the Latin-1 numerics. -/
def rustIsAlphanumeric (c : Char) : Bool :=
  let n := c.toNat
  (0x41 ≤ n && n ≤ 0x5A) || (0x61 ≤ n && n ≤ 0x7A) || (0x30 ≤ n && n ≤ 0x39) ||
    n == 0xAA || n == 0xB5 || n == 0xBA ||
    (0xC0 ≤ n && n ≤ 0xD6) || (0xD8 ≤ n && n ≤ 0xF6) || (0xF8 ≤ n && n ≤ 0xFF) ||
    rustIsNumeric c

/-- NULL_C from src/scanner.rs. -/
def NULL_C : Char := '\x00'

/-- Rust `str::is_char_boundary`: byte index `n` sits on a char boundary of
the string with chars `cs`. -/
def isBoundary : List Char → Nat → Bool
  | _, 0 => true
  | [], _ + 1 => false
  | c :: cs, n + 1 =>
    if n + 1 < (utf8Bytes c).length then false
    else isBoundary cs (n + 1 - (utf8Bytes c).length)

/-- Rust byte-range slicing `&s[a..b]` (returns `none` where Rust panics:
out of range or not on char boundaries); the result is the byte list of the
sliced `&str`. -/
def sliceStr (s : List Char) (a b : Nat) : Option (List Nat) :=
  if a ≤ b ∧ b ≤ (strBytes s).length ∧ isBoundary s a ∧ isBoundary s b then
    some (((strBytes s).drop a).take (b - a))
  else none

/-- ASCII digit test on a byte, used to state number-scanning properties. -/
def isDigitByte (b : Nat) : Bool := 0x30 ≤ b && b ≤ 0x39

/-- Integer value of a list of ASCII digit bytes (most significant first),
computed in `Nat` so that it reduces in the kernel. -/
def digitsVal (ds : List Nat) : Nat :=
  ds.foldl (fun acc d => acc * 10 + (d - 0x30)) 0

/-- Model of `f64::from_str` on the byte strings this scanner can pass to it,
as an exact rational: accepts `digits+ ('.' digits*)?` (Rust also accepts a
trailing lone dot as in "1."), rejects anything else (in particular any
byte string containing a non-ASCII byte, e.g. the encoding of `²`).  The
value `int.frac` is the exact rational `(int * 10^k + frac) / 10^k`. -/
def rustParseF64 (bs : List Nat) : Option ℚ :=
  let intPart := bs.takeWhile isDigitByte
  let rest := bs.drop intPart.length
  if intPart.isEmpty then none
  else
    match rest with
    | [] => some (mkRat (digitsVal intPart) 1)
    | d :: frac =>
      if d = 0x2E ∧ frac.all isDigitByte then
        some (mkRat (digitsVal intPart * 10 ^ frac.length + digitsVal frac) (10 ^ frac.length))
      else none

/-- Scanner state from src/scanner.rs: source text, the shared reporter's
error list, the token vector, and the `start`/`current`/`line` cursors. -/
structure ScanState where
  source : List Char
  errors : List Report
  tokens : List Token
  start : Nat
  current : Nat
  line : Nat
deriving DecidableEq

namespace ScanState

/-- Byte representation of the scanner's source (`self.source.as_bytes()`). -/
def bytes (st : ScanState) : List Nat := strBytes st.source

/-- Scanner::is_at_end — `self.current >= self.source.len()` (byte length). -/
def is_at_end (st : ScanState) : Bool := st.bytes.length ≤ st.current

/-- Scanner::nth — `char::from(self.source.as_bytes()[n])`.  Every caller
guards the index, so the out-of-range default is never observable. -/
def nth (st : ScanState) (n : Nat) : Char := Char.ofNat (st.bytes.getD n 0)

/-- Scanner::peek. -/
def peek (st : ScanState) : Char := if st.is_at_end then NULL_C else st.nth st.current

/-- Scanner::peek_next. -/
def peek_next (st : ScanState) : Char :=
  if st.bytes.length ≤ st.current + 1 then NULL_C else st.nth (st.current + 1)

/-- Scanner::advance — reads `self.source.chars().nth(self.current)` (a
char index!) and unconditionally increments `current`. -/
def advance (st : ScanState) : Option Char × ScanState :=
  (st.source.get? st.current, { st with current := st.current + 1 })

/-- Scanner::match_char. -/
def match_char (st : ScanState) (expected : Char) : Bool × ScanState :=
  if st.is_at_end ∨ ¬(st.nth st.current = expected) then (false, st)
  else (true, { st with current := st.current + 1 })

/-- Reporter::report as called by the scanner (pushes one entry). -/
def report (st : ScanState) (line : Nat) (loc : ErrLoc) (msg : ErrMsg) : ScanState :=
  { st with errors := st.errors ++ [⟨line, loc, msg⟩] }

/-- Scanner::is_digit — `c.is_numeric()`. -/
def is_digit (_st : ScanState) (c : Char) : Bool := rustIsNumeric c

/-- Scanner::is_alpha — `c.is_alphanumeric() || c == '_'` (sic: the source
already uses `is_alphanumeric` here). -/
def is_alpha (_st : ScanState) (c : Char) : Bool := rustIsAlphanumeric c || c == '_'

/-- Scanner::is_alphanumeric — `is_alpha c || is_digit c`. -/
def is_alphanumeric (st : ScanState) (c : Char) : Bool := st.is_alpha c || st.is_digit c

end ScanState

/-- Result of a scanner computation: normal state, Rust panic, or fuel
exhaustion (a model artifact, proved unreachable for the fuel supplied by
`scanSource`). -/
inductive SRes where
  | ok (st : ScanState)
  | panic (msg : String)
  | fuel
deriving DecidableEq

namespace Scanner

open ScanState

/-- Scanner::add_token — slices `source[start..current]` for the lexeme
(Rust panics on a non-boundary slice) and pushes the token. -/
def add_token (st : ScanState) (t : TokenType) (lit : Option Literal) : SRes :=
  match sliceStr st.source st.start st.current with
  | none => .panic "byte index is not a char boundary"
  | some text => .ok { st with tokens := st.tokens ++ [⟨t, text, lit, st.line⟩] }

/-- Scanner::add_char_token. -/
def add_char_token (st : ScanState) (t : TokenType) : SRes := add_token st t none

/-- Loop `while self.is_digit(self.peek()) { self.advance(); }` of
Scanner::number (the char read by `advance` is discarded; its state effect
is `current + 1`). -/
def numberLoop : Nat → ScanState → Option ScanState
  | 0, _ => none
  | f + 1, st =>
    if st.is_digit st.peek then numberLoop f { st with current := st.current + 1 }
    else some st

/-- Loop of Scanner::identifier. -/
def identifierLoop : Nat → ScanState → Option ScanState
  | 0, _ => none
  | f + 1, st =>
    if st.is_alphanumeric st.peek then identifierLoop f { st with current := st.current + 1 }
    else some st

/-- Loop of Scanner::string: consume until a `"` byte or end of input,
bumping `line` at each `\n` byte. -/
def stringLoop : Nat → ScanState → Option ScanState
  | 0, _ => none
  | f + 1, st =>
    if ¬(st.peek = '"') ∧ ¬st.is_at_end then
      let st' := if st.peek = '\x0a' then { st with line := st.line + 1 } else st
      stringLoop f { st' with current := st'.current + 1 }
    else some st

/-- Line-comment loop of Scanner::scan_token. -/
def commentLoop : Nat → ScanState → Option ScanState
  | 0, _ => none
  | f + 1, st =>
    if ¬(st.peek = '\x0a') ∧ ¬st.is_at_end then
      commentLoop f { st with current := st.current + 1 }
    else some st

/-- Keyword table from src/scanner.rs (keys as UTF-8 byte lists). -/
def KEYWORDS : List (List Nat × TokenType) :=
  [(strBytes "and".data, .kwAnd), (strBytes "class".data, .kwClass),
   (strBytes "else".data, .kwElse), (strBytes "false".data, .kwFalse),
   (strBytes "for".data, .kwFor), (strBytes "fun".data, .kwFun),
   (strBytes "if".data, .kwIf), (strBytes "nil".data, .kwNil),
   (strBytes "or".data, .kwOr), (strBytes "print".data, .kwPrint),
   (strBytes "return".data, .kwReturn), (strBytes "super".data, .kwSuper),
   (strBytes "this".data, .kwThis), (strBytes "true".data, .kwTrue),
   (strBytes "var".data, .kwVar), (strBytes "while".data, .kwWhile)]

/-- Scanner::number.  The `expect` on `f64::from_str` and the byte slicing
are Rust panics. -/
def number (f : Nat) (st : ScanState) : SRes :=
  match numberLoop f st with
  | none => .fuel
  | some st1 =>
    let st2 :=
      if st1.peek = '.' ∧ st1.is_digit st1.peek_next then
        { st1 with current := st1.current + 1 }
      else st1
    match numberLoop f st2 with
    | none => .fuel
    | some st3 =>
      match sliceStr st3.source st3.start st3.current with
      | none => .panic "byte index is not a char boundary"
      | some text =>
        match rustParseF64 text with
        | none => .panic "Failed to parse number from source"
        | some q => add_token st3 .number (some (.num q))

/-- Scanner::string. -/
def string (f : Nat) (st : ScanState) : SRes :=
  match stringLoop f st with
  | none => .fuel
  | some st1 =>
    if st1.is_at_end then .ok (st1.report st1.line .empty .unterminatedString)
    else
      let st2 := (st1.advance).2
      match sliceStr st2.source (st2.start + 1) (st2.current - 1) with
      | none => .panic "byte index is not a char boundary"
      | some value => add_token st2 .string (some (.str value))

/-- Scanner::identifier. -/
def identifier (f : Nat) (st : ScanState) : SRes :=
  match identifierLoop f st with
  | none => .fuel
  | some st1 =>
    match sliceStr st1.source st1.start st1.current with
    | none => .panic "byte index is not a char boundary"
    | some text => add_token st1 ((KEYWORDS.lookup text).getD .identifier) none

/-- Scanner::scan_token.  The Rust `match` over the consumed char is a
sequence of literal-equality tests; it is rendered here as the equivalent
if-chain, in source order. -/
def scan_token (f : Nat) (st0 : ScanState) : SRes :=
  let pos := st0.current
  let a := st0.advance
  let st := a.2
  match a.1 with
  | none => .ok (st.report st.line .empty (.invalidUtf8 pos))
  | some c =>
    if c = '(' then add_char_token st .leftParen
    else if c = ')' then add_char_token st .rightParen
    else if c = '{' then add_char_token st .leftBrace
    else if c = '}' then add_char_token st .rightBrace
    else if c = ',' then add_char_token st .comma
    else if c = '.' then add_char_token st .dot
    else if c = '-' then add_char_token st .minus
    else if c = '+' then add_char_token st .plus
    else if c = ';' then add_char_token st .semicolon
    else if c = '*' then add_char_token st .star
    else if c = '!' then
      let p := st.match_char '='
      add_char_token p.2 (if p.1 then .bangEqual else .bang)
    else if c = '=' then
      let p := st.match_char '='
      add_char_token p.2 (if p.1 then .equalEqual else .equal)
    else if c = '<' then
      let p := st.match_char '='
      add_char_token p.2 (if p.1 then .lessEqual else .less)
    else if c = '>' then
      let p := st.match_char '='
      add_char_token p.2 (if p.1 then .greaterEqual else .greater)
    else if c = '/' then
      let p := st.match_char '/'
      if p.1 then
        match commentLoop f p.2 with
        | none => .fuel
        | some st2 => .ok st2
      else add_char_token p.2 .slash
    else if c = '\x0a' then .ok { st with line := st.line + 1 }
    else if c = ' ' ∨ c = '\x0d' ∨ c = '\x09' then .ok st
    else if c = '"' then string f st
    else if st.is_digit c then number f st
    else if st.is_alpha c then identifier f st
    else .ok (st.report st.line .empty (.unexpectedChar c))

/-- Main loop of Scanner::scan_tokens:
`while !is_at_end { start = current; scan_token() }`. -/
def scanLoop : Nat → ScanState → SRes
  | 0, _ => .fuel
  | f + 1, st =>
    if st.is_at_end then .ok st
    else
      match scan_token f { st with start := st.current } with
      | .ok st' => scanLoop f st'
      | r => r

/-- Scanner::scan_tokens — the loop followed by the unconditional push of
the end-of-file token with an empty lexeme at the final line. -/
def scan_tokens (f : Nat) (st : ScanState) : SRes :=
  match scanLoop f st with
  | .ok st' => .ok { st' with tokens := st'.tokens ++ [⟨.eof, [], none, st'.line⟩] }
  | r => r

/-- Scanner::new. -/
def new (source : List Char) : ScanState :=
  { source := source, errors := [], tokens := [], start := 0, current := 0, line := 1 }

end Scanner

/-- Fuel sufficient for every loop of one scan (proved below). -/
def scanFuel (src : List Char) : Nat := (strBytes src).length + 1

/-- Running `Scanner::new(src)` followed by `scan_tokens`. -/
def scanSource (src : List Char) : SRes :=
  Scanner.scan_tokens (scanFuel src) (Scanner.new src)

/-- Expression from src/ast.rs. -/
inductive Expression where
  | binary (left : Expression) (op : Token) (right : Expression)
  | grouping (e : Expression)
  | literal (value : Option Literal)
  | unary (op : Token) (e : Expression)
deriving DecidableEq

/-- Parser state from src/parser.rs.  Note that `Parser::new` as written
constructs a fresh, parser-private `Reporter` (`reporter: Reporter::new()`);
it does not receive the shared reporter. -/
structure PState where
  tokens : List Token
  current : Nat
  reporter : List Report
deriving DecidableEq

/-- Result of a parser computation: `ok`/`err` mirror Rust's
`Result<T, anyhow::Error>` (the error value itself carries no payload the
code inspects; the diagnostic sits in the reporter inside the state),
`panic` models Rust panics (`unwrap` on `Err`, out-of-bounds indexing),
`fuel` is the model's fuel-exhaustion artifact used to exhibit
non-termination. -/
inductive PRes (α : Type) where
  | ok (a : α) (st : PState)
  | err (st : PState)
  | panic (msg : String) (st : PState)
  | fuel
deriving DecidableEq

namespace Parser

/-- Parser::new — note the parser-private reporter. -/
def new (tokens : List Token) : PState :=
  { tokens := tokens, current := 0, reporter := [] }

/-- Parser::had_error — inspects the parser-private reporter. -/
def had_error (st : PState) : Bool := !st.reporter.isEmpty

/-- Parser::peek — `self.tokens[self.current]`; `none` models the Rust
index-out-of-bounds panic. -/
def peek (st : PState) : Option Token := st.tokens.get? st.current

/-- Parser::previous — `self.tokens[self.current - 1]`; `none` models the
panic (underflow or out of bounds). -/
def previous (st : PState) : Option Token :=
  if st.current = 0 then none else st.tokens.get? (st.current - 1)

/-- Parser::is_at_end. -/
def is_at_end (st : PState) : Option Bool :=
  (peek st).map (fun t => decide (t.token_type = .eof))

/-- Parser::advance. -/
def advance (st : PState) : Option (Token × PState) :=
  match is_at_end st with
  | none => none
  | some b =>
    let st' := if b then st else { st with current := st.current + 1 }
    (previous st').map (fun t => (t, st'))

/-- Parser::check. -/
def check (st : PState) (tt : TokenType) : Option Bool :=
  match is_at_end st with
  | none => none
  | some true => some false
  | some false => (peek st).map (fun t => decide (t.token_type = tt))

/-- Parser::matches — returns whether one of `tts` matched, and the state
after the conditional `advance`. -/
def matchesTok (st : PState) : List TokenType → Option (Bool × PState)
  | [] => some (false, st)
  | tt :: rest =>
    match check st tt with
    | none => none
    | some true => (advance st).map (fun p => (true, p.2))
    | some false => matchesTok st rest

/-- Parser::error — `Reporter::error(token, message)` formats the location
from the token and pushes the entry, then an `anyhow!` error is returned
(modeled by the caller producing `PRes.err`). -/
def error (st : PState) (tok : Token) (msg : String) : PState :=
  let loc := if tok.token_type = .eof then ErrLoc.atEnd else ErrLoc.atLexeme tok.lexeme
  { st with reporter := st.reporter ++ [⟨tok.line, loc, .text msg⟩] }

/-- Parser::consume. -/
def consume (st : PState) (tt : TokenType) (msg : String) : PRes Unit :=
  match check st tt with
  | none => .panic "index out of bounds" st
  | some true =>
    match advance st with
    | none => .panic "index out of bounds" st
    | some (_, st') => .ok () st'
  | some false =>
    match peek st with
    | none => .panic "index out of bounds" st
    | some tok => .err (error st tok msg)

/-- While loop of Parser::synchronize.  Note the faithful empty match arms
for the statement keywords: they neither return nor advance, so the loop
state does not change there. -/
def syncLoop (st : PState) : Nat → PRes Unit
  | 0 => .fuel
  | f + 1 =>
    match is_at_end st with
    | none => .panic "index out of bounds" st
    | some true => .ok () st
    | some false =>
      match previous st with
      | none => .panic "index out of bounds" st
      | some prev =>
        if prev.token_type = .semicolon then .ok () st
        else
          match peek st with
          | none => .panic "index out of bounds" st
          | some tok =>
            match tok.token_type with
            | .kwClass => syncLoop st f
            | .kwFun => syncLoop st f
            | .kwVar => syncLoop st f
            | .kwFor => syncLoop st f
            | .kwIf => syncLoop st f
            | .kwWhile => syncLoop st f
            | .kwPrint => syncLoop st f
            | .kwReturn => syncLoop st f
            | _ =>
              match advance st with
              | none => .panic "index out of bounds" st
              | some (_, st') => syncLoop st' f

/-- Parser::synchronize — one `advance`, then the loop. -/
def synchronize (st : PState) (fuel : Nat) : PRes Unit :=
  match advance st with
  | none => .panic "index out of bounds" st
  | some (_, st') => syncLoop st' fuel

mutual

/-- Parser::expression. -/
def expression (st : PState) : Nat → PRes Expression
  | 0 => .fuel
  | f + 1 => equality st f

/-- Parser::equality. -/
def equality (st : PState) : Nat → PRes Expression
  | 0 => .fuel
  | f + 1 =>
    match comparison st f with
    | .ok e st' => equalityLoop e st' f
    | r => r

/-- While loop of Parser::equality. -/
def equalityLoop (e : Expression) (st : PState) : Nat → PRes Expression
  | 0 => .fuel
  | f + 1 =>
    match matchesTok st [.bangEqual, .equalEqual] with
    | none => .panic "index out of bounds" st
    | some (false, st') => .ok e st'
    | some (true, st') =>
      match previous st' with
      | none => .panic "index out of bounds" st'
      | some op =>
        match comparison st' f with
        | .ok right st'' => equalityLoop (.binary e op right) st'' f
        | r => r

/-- Parser::comparison. -/
def comparison (st : PState) : Nat → PRes Expression
  | 0 => .fuel
  | f + 1 =>
    match term st f with
    | .ok e st' => comparisonLoop e st' f
    | r => r

/-- While loop of Parser::comparison. -/
def comparisonLoop (e : Expression) (st : PState) : Nat → PRes Expression
  | 0 => .fuel
  | f + 1 =>
    match matchesTok st [.greater, .greaterEqual, .less, .lessEqual] with
    | none => .panic "index out of bounds" st
    | some (false, st') => .ok e st'
    | some (true, st') =>
      match previous st' with
      | none => .panic "index out of bounds" st'
      | some op =>
        match term st' f with
        | .ok right st'' => comparisonLoop (.binary e op right) st'' f
        | r => r

/-- Parser::term. -/
def term (st : PState) : Nat → PRes Expression
  | 0 => .fuel
  | f + 1 =>
    match factor st f with
    | .ok e st' => termLoop e st' f
    | r => r

/-- While loop of Parser::term. -/
def termLoop (e : Expression) (st : PState) : Nat → PRes Expression
  | 0 => .fuel
  | f + 1 =>
    match matchesTok st [.minus, .plus] with
    | none => .panic "index out of bounds" st
    | some (false, st') => .ok e st'
    | some (true, st') =>
      match previous st' with
      | none => .panic "index out of bounds" st'
      | some op =>
        match factor st' f with
        | .ok right st'' => termLoop (.binary e op right) st'' f
        | r => r

/-- Parser::factor. -/
def factor (st : PState) : Nat → PRes Expression
  | 0 => .fuel
  | f + 1 =>
    match unary st f with
    | .ok e st' => factorLoop e st' f
    | r => r

/-- While loop of Parser::factor. -/
def factorLoop (e : Expression) (st : PState) : Nat → PRes Expression
  | 0 => .fuel
  | f + 1 =>
    match matchesTok st [.slash, .star] with
    | none => .panic "index out of bounds" st
    | some (false, st') => .ok e st'
    | some (true, st') =>
      match previous st' with
      | none => .panic "index out of bounds" st'
      | some op =>
        match unary st' f with
        | .ok right st'' => factorLoop (.binary e op right) st'' f
        | r => r

/-- Parser::unary. -/
def unary (st : PState) : Nat → PRes Expression
  | 0 => .fuel
  | f + 1 =>
    match matchesTok st [.bang, .minus] with
    | none => .panic "index out of bounds" st
    | some (true, st') =>
      match previous st' with
      | none => .panic "index out of bounds" st'
      | some op =>
        match unary st' f with
        | .ok right st'' => .ok (.unary op right) st''
        | r => r
    | some (false, st') => primary st' f

/-- Parser::primary.  `nil` is parsed to
`Expression::Literal(Some(Literal::String("nil")))` — a String literal.
In the parenthesized branch, a failed `consume` of `)` runs
`synchronize` via `map_err` and then `.unwrap()` panics on the mapped
`Err(())`. -/
def primary (st : PState) : Nat → PRes Expression
  | 0 => .fuel
  | f + 1 =>
    match matchesTok st [.kwFalse] with
    | none => .panic "index out of bounds" st
    | some (true, st1) => .ok (.literal (some (.boolean false))) st1
    | some (false, st1) =>
    match matchesTok st1 [.kwTrue] with
    | none => .panic "index out of bounds" st1
    | some (true, st2) => .ok (.literal (some (.boolean true))) st2
    | some (false, st2) =>
    match matchesTok st2 [.kwNil] with
    | none => .panic "index out of bounds" st2
    | some (true, st3) => .ok (.literal (some (.str (strBytes "nil".data)))) st3
    | some (false, st3) =>
    match matchesTok st3 [.number, .string] with
    | none => .panic "index out of bounds" st3
    | some (true, st4) =>
      match previous st4 with
      | none => .panic "index out of bounds" st4
      | some tok => .ok (.literal tok.literal) st4
    | some (false, st4) =>
    match matchesTok st4 [.leftParen] with
    | none => .panic "index out of bounds" st4
    | some (true, st5) =>
      match expression st5 f with
      | .ok e st6 =>
        match consume st6 .rightParen "Expect ')' after expression." with
        | .ok _ st7 => .ok (.grouping e) st7
        | .err st7 =>
          match synchronize st7 f with
          | .ok _ st8 => .panic "called Result::unwrap on an Err value" st8
          | .err st8 => .err st8
          | .panic m st8 => .panic m st8
          | .fuel => .fuel
        | .panic m st7 => .panic m st7
        | .fuel => .fuel
      | r => r
    | some (false, st5) =>
      match peek st5 with
      | none => .panic "index out of bounds" st5
      | some tok => .err (error st5 tok "Expect expression.")

end

/-- Parser::parse — `self.expression().unwrap_or(Expression::Literal(None))`. -/
def parse (st : PState) (f : Nat) : PRes Expression :=
  match expression st f with
  | .ok e st' => .ok e st'
  | .err st' => .ok (.literal none) st'
  | .panic m st' => .panic m st'
  | .fuel => .fuel

end Parser

/-- Diagnostic printed by Interpreter::evaluate_binary via `eprintln!`
("Incompatible types for operator ...": the operator and both operand
values). -/
structure Diag where
  op : TokenType
  left : Literal
  right : Literal
deriving DecidableEq

namespace Interpreter

/-- Interpreter::are_compatible. -/
def are_compatible (op : TokenType) (l r : Literal) : Bool :=
  match op with
  | .plus =>
    match l, r with
    | .num _, .num _ => true
    | .str _, .str _ => true
    | _, _ => false
  | .minus | .slash | .star =>
    match l, r with
    | .num _, .num _ => true
    | _, _ => false
  | .greater | .greaterEqual | .less | .lessEqual =>
    match l, r with
    | .num _, .num _ => true
    | _, _ => false
  | .bangEqual | .equalEqual => true
  | _ => false

/-- Interpreter::visit / Interpreter::evaluate (aliases in the source,
inlined into one recursive function), together with evaluate_unary and
evaluate_binary, threading the list of diagnostics printed to the error
stream.  The function is total: the interpreter contains no panicking
construct.  `f64` arithmetic is exact rational arithmetic here; no theorem
below depends on rounding or on division by zero. -/
def evaluate : Expression → Option Literal × List Diag
  | .literal l => (l, [])
  | .grouping e => evaluate e
  | .unary op e =>
    match evaluate e with
    | (none, d) => (none, d)
    | (some right, d) =>
      (match right with
       | .num v => if op.token_type = .minus then some (.num (-v)) else none
       | .boolean v => if op.token_type = .bang then some (.boolean (!v)) else none
       | _ => none,
       d)
  | .binary left op right =>
    match evaluate left with
    | (none, d1) => (none, d1)
    | (some lv, d1) =>
      match evaluate right with
      | (none, d2) => (none, d1 ++ d2)
      | (some rv, d2) =>
        if are_compatible op.token_type lv rv then
          (match op.token_type, lv, rv with
           | .minus, .num a, .num b => some (.num (a - b))
           | .slash, .num a, .num b => some (.num (a / b))
           | .star, .num a, .num b => some (.num (a * b))
           | .plus, .num a, .num b => some (.num (a + b))
           | .plus, .str a, .str b => some (.str (a ++ b))
           | .greater, .num a, .num b => some (.boolean (decide (b < a)))
           | .greaterEqual, .num a, .num b => some (.boolean (decide (b ≤ a)))
           | .less, .num a, .num b => some (.boolean (decide (a < b)))
           | .lessEqual, .num a, .num b => some (.boolean (decide (a ≤ b)))
           | .bangEqual, a, b => some (.boolean (!decide (a = b)))
           | .equalEqual, a, b => some (.boolean (decide (a = b)))
           | _, _, _ => none,
           d1 ++ d2)
        else (none, d1 ++ d2 ++ [⟨op.token_type, lv, rv⟩])

end Interpreter

/-- Lox state from src/lox.rs: the shared reporter (which received the
scanner errors) and the scanned tokens.  Note: lox.rs calls
`Parser::new(&self.tokens, &self.reporter)` with two arguments, but
`Parser::new` in src/parser.rs takes only the token slice and builds a
parser-private `Reporter::new()`; the two files cannot compile together.
We model the parser as parser.rs defines it, so syntax errors never reach
the shared reporter that `Lox::had_error` inspects. -/
structure LoxState where
  sharedErrors : List Report
  tokens : List Token
deriving DecidableEq

/-- Lox::new — scan the source; the shared reporter holds the scan errors.
`none` models the scan panicking. -/
def Lox.new (src : List Char) : Option LoxState :=
  match scanSource src with
  | .ok st => some ⟨st.errors, st.tokens⟩
  | _ => none

/-- Lox::had_error — inspects only the shared reporter. -/
def Lox.had_error (lx : LoxState) : Bool := !lx.sharedErrors.isEmpty

/-- Byte-level version of the scanner digit test `is_digit` applied to a
peeked byte (`char::from(byte)`). -/
def isNumericByte (b : Nat) : Bool := rustIsNumeric (Char.ofNat b)

/-- Byte-level version of the scanner test `is_alphanumeric` applied to a
peeked byte. -/
def isAlnumByte (b : Nat) : Bool :=
  (rustIsAlphanumeric (Char.ofNat b) || (Char.ofNat b == '_')) || rustIsNumeric (Char.ofNat b)

/-- The element right after the maximal `takeWhile` prefix fails the
predicate. -/
theorem takeWhile_next_false (p : Nat → Bool) (l : List Nat) :
    ∀ b, (l.drop (l.takeWhile p).length).head? = some b → p b = false := by
  induction l with
  | nil => simp
  | cons a t ih =>
    intro b hb
    rw [List.takeWhile_cons] at hb
    by_cases hpa : p a
    · simp only [if_pos hpa, List.length_cons, List.drop_succ_cons] at hb
      exact ih b hb
    · simp only [if_neg hpa, List.length_nil, List.drop_zero, List.head?_cons,
        Option.some.injEq] at hb
      subst hb
      simpa using hpa

namespace ScanState

@[simp] theorem bytes_set_current (st : ScanState) (n : Nat) :
    ({ st with current := n } : ScanState).bytes = st.bytes := rfl

@[simp] theorem bytes_mk (source : List Char) (errors : List Report) (tokens : List Token)
    (start current line : Nat) :
    (ScanState.mk source errors tokens start current line).bytes = strBytes source := rfl

@[simp] theorem current_mk (source : List Char) (errors : List Report) (tokens : List Token)
    (start current line : Nat) :
    (ScanState.mk source errors tokens start current line).current = current := rfl

theorem bytes_def (st : ScanState) : st.bytes = strBytes st.source := rfl

@[simp] theorem bytes_set_line (st : ScanState) (n : Nat) :
    ({ st with line := n } : ScanState).bytes = st.bytes := rfl

@[simp] theorem bytes_set_start (st : ScanState) (n : Nat) :
    ({ st with start := n } : ScanState).bytes = st.bytes := rfl

end ScanState

namespace Scanner

/-- numberLoop, when it completes, advances `current` over exactly the
maximal run of bytes whose `char::from` image satisfies `is_numeric` —
the maximal-munch property of number scanning. -/
theorem numberLoop_spec :
    ∀ {f : Nat} {st st' : ScanState}, numberLoop f st = some st' →
      st' = { st with
        current := st.current + ((st.bytes.drop st.current).takeWhile isNumericByte).length } := by
  intro f
  induction f with
  | zero => intro st st' h; simp [numberLoop] at h
  | succ f ih =>
    intro st st' h
    rw [numberLoop] at h
    by_cases hd : st.is_digit st.peek
    · rw [if_pos hd] at h
      have hne : ¬ st.is_at_end := by
        intro hab
        rw [ScanState.peek, if_pos hab, ScanState.is_digit] at hd
        exact absurd hd (by decide)
      have hlt : st.current < st.bytes.length := by
        simpa [ScanState.is_at_end, Nat.not_le] using hne
      have h2 := ih h
      have hdrop : st.bytes.drop st.current =
          st.bytes[st.current] :: st.bytes.drop (st.current + 1) :=
        List.drop_eq_getElem_cons hlt
      have hpb : isNumericByte st.bytes[st.current] = true := by
        rw [ScanState.peek, if_neg hne, ScanState.nth,
          List.getD_eq_getElem _ _ hlt] at hd
        exact hd
      rw [h2]
      simp only [ScanState.bytes_set_current, hdrop, List.takeWhile_cons, if_pos hpb,
        List.length_cons]
      congr 1
      omega
    · rw [if_neg hd] at h
      cases h
      have hz : ((st.bytes.drop st.current).takeWhile isNumericByte).length = 0 := by
        by_cases hne : st.is_at_end
        · have hle : st.bytes.length ≤ st.current := by
            simpa [ScanState.is_at_end] using hne
          simp [List.drop_eq_nil_of_le hle]
        · have hlt : st.current < st.bytes.length := by
            simpa [ScanState.is_at_end, Nat.not_le] using hne
          have hdrop : st.bytes.drop st.current =
              st.bytes[st.current] :: st.bytes.drop (st.current + 1) :=
            List.drop_eq_getElem_cons hlt
          have hpb : ¬ isNumericByte st.bytes[st.current] = true := by
            rw [ScanState.peek, if_neg hne, ScanState.nth,
              List.getD_eq_getElem _ _ hlt] at hd
            exact hd
          rw [hdrop, List.takeWhile_cons, if_neg hpb]
          simp
      rw [hz]
      cases st
      simp

end Scanner

namespace Scanner

/-- identifierLoop, when it completes, only advances `current`. -/
theorem identifierLoop_spec :
    ∀ {f : Nat} {st st' : ScanState}, identifierLoop f st = some st' →
      st'.source = st.source ∧ st'.errors = st.errors ∧ st'.tokens = st.tokens ∧
        st'.start = st.start ∧ st'.line = st.line ∧ st.current ≤ st'.current := by
  intro f
  induction f with
  | zero => intro st st' h; simp [identifierLoop] at h
  | succ f ih =>
    intro st st' h
    rw [identifierLoop] at h
    by_cases hd : st.is_alphanumeric st.peek
    · rw [if_pos hd] at h
      have h2 := ih h
      refine ⟨h2.1, h2.2.1, h2.2.2.1, h2.2.2.2.1, h2.2.2.2.2.1, ?_⟩
      have := h2.2.2.2.2.2
      simp only at this
      omega
    · rw [if_neg hd] at h
      cases h
      exact ⟨rfl, rfl, rfl, rfl, rfl, Nat.le_refl _⟩

/-- commentLoop, when it completes, only advances `current`. -/
theorem commentLoop_spec :
    ∀ {f : Nat} {st st' : ScanState}, commentLoop f st = some st' →
      st'.source = st.source ∧ st'.errors = st.errors ∧ st'.tokens = st.tokens ∧
        st'.start = st.start ∧ st'.line = st.line ∧ st.current ≤ st'.current := by
  intro f
  induction f with
  | zero => intro st st' h; simp [commentLoop] at h
  | succ f ih =>
    intro st st' h
    rw [commentLoop] at h
    by_cases hd : ¬(st.peek = '\x0a') ∧ ¬st.is_at_end
    · rw [if_pos hd] at h
      have h2 := ih h
      refine ⟨h2.1, h2.2.1, h2.2.2.1, h2.2.2.2.1, h2.2.2.2.2.1, ?_⟩
      have := h2.2.2.2.2.2
      simp only at this
      omega
    · rw [if_neg hd] at h
      cases h
      exact ⟨rfl, rfl, rfl, rfl, rfl, Nat.le_refl _⟩

/-- stringLoop, when it completes, advances `current` and possibly `line`. -/
theorem stringLoop_spec :
    ∀ {f : Nat} {st st' : ScanState}, stringLoop f st = some st' →
      st'.source = st.source ∧ st'.errors = st.errors ∧ st'.tokens = st.tokens ∧
        st'.start = st.start ∧ st.current ≤ st'.current := by
  intro f
  induction f with
  | zero => intro st st' h; simp [stringLoop] at h
  | succ f ih =>
    intro st st' h
    rw [stringLoop] at h
    by_cases hd : ¬(st.peek = '"') ∧ ¬st.is_at_end
    · rw [if_pos hd] at h
      by_cases hnl : st.peek = '\x0a'
      · rw [if_pos hnl] at h
        have h2 := ih h
        refine ⟨h2.1, h2.2.1, h2.2.2.1, h2.2.2.2.1, ?_⟩
        have := h2.2.2.2.2
        simp only at this
        omega
      · rw [if_neg hnl] at h
        have h2 := ih h
        refine ⟨h2.1, h2.2.1, h2.2.2.1, h2.2.2.2.1, ?_⟩
        have := h2.2.2.2.2
        simp only at this
        omega
    · rw [if_neg hd] at h
      cases h
      exact ⟨rfl, rfl, rfl, rfl, Nat.le_refl _⟩

/-- With more fuel than remaining bytes, numberLoop completes. -/
theorem numberLoop_isSome :
    ∀ {f : Nat} {st : ScanState}, st.bytes.length - st.current < f →
      (numberLoop f st).isSome := by
  intro f
  induction f with
  | zero => intro st h; omega
  | succ f ih =>
    intro st h
    rw [numberLoop]
    by_cases hd : st.is_digit st.peek
    · rw [if_pos hd]
      have hne : ¬ st.is_at_end := by
        intro hab
        rw [ScanState.peek, if_pos hab, ScanState.is_digit] at hd
        exact absurd hd (by decide)
      have hlt : st.current < st.bytes.length := by
        simpa [ScanState.is_at_end, Nat.not_le] using hne
      exact ih (by simp only [ScanState.bytes_set_current]; omega)
    · rw [if_neg hd]
      simp

/-- With more fuel than remaining bytes, identifierLoop completes. -/
theorem identifierLoop_isSome :
    ∀ {f : Nat} {st : ScanState}, st.bytes.length - st.current < f →
      (identifierLoop f st).isSome := by
  intro f
  induction f with
  | zero => intro st h; omega
  | succ f ih =>
    intro st h
    rw [identifierLoop]
    by_cases hd : st.is_alphanumeric st.peek
    · rw [if_pos hd]
      have hne : ¬ st.is_at_end := by
        intro hab
        rw [ScanState.peek, if_pos hab, ScanState.is_alphanumeric,
          ScanState.is_alpha, ScanState.is_digit] at hd
        exact absurd hd (by decide)
      have hlt : st.current < st.bytes.length := by
        simpa [ScanState.is_at_end, Nat.not_le] using hne
      exact ih (by simp only [ScanState.bytes_set_current]; omega)
    · rw [if_neg hd]
      simp

/-- With more fuel than remaining bytes, commentLoop completes. -/
theorem commentLoop_isSome :
    ∀ {f : Nat} {st : ScanState}, st.bytes.length - st.current < f →
      (commentLoop f st).isSome := by
  intro f
  induction f with
  | zero => intro st h; omega
  | succ f ih =>
    intro st h
    rw [commentLoop]
    by_cases hd : ¬(st.peek = '\x0a') ∧ ¬st.is_at_end
    · rw [if_pos hd]
      have hlt : st.current < st.bytes.length := by
        have := hd.2
        simpa [ScanState.is_at_end, Nat.not_le] using this
      exact ih (by simp only [ScanState.bytes_set_current]; omega)
    · rw [if_neg hd]
      simp

/-- With more fuel than remaining bytes, stringLoop completes. -/
theorem stringLoop_isSome :
    ∀ {f : Nat} {st : ScanState}, st.bytes.length - st.current < f →
      (stringLoop f st).isSome := by
  intro f
  induction f with
  | zero => intro st h; omega
  | succ f ih =>
    intro st h
    rw [stringLoop]
    by_cases hd : ¬(st.peek = '"') ∧ ¬st.is_at_end
    · rw [if_pos hd]
      have hlt : st.current < st.bytes.length := by
        have := hd.2
        simpa [ScanState.is_at_end, Nat.not_le] using this
      by_cases hnl : st.peek = '\x0a'
      · rw [if_pos hnl]
        exact ih (by
          simp only [ScanState.bytes_mk, ScanState.bytes_def] at h hlt ⊢
          omega)
      · rw [if_neg hnl]
        exact ih (by
          simp only [ScanState.bytes_mk, ScanState.bytes_def] at h hlt ⊢
          omega)
    · rw [if_neg hd]
      simp

end Scanner

/-- Extension relation between scanner states: one or more scan steps only
append tokens (never an end-of-file token) and errors, never shrink or edit
them, preserve the source, and move `current` forward. -/
def ScanExt (st st' : ScanState) : Prop :=
  st'.source = st.source ∧ st.current ≤ st'.current ∧
    ∃ ts es, st'.tokens = st.tokens ++ ts ∧ (∀ tok ∈ ts, tok.token_type ≠ TokenType.eof) ∧
      st'.errors = st.errors ++ es

theorem ScanExt.refl (st : ScanState) : ScanExt st st :=
  ⟨Eq.refl _, Nat.le_refl _, [], [], by simp, by simp, by simp⟩

theorem ScanExt.trans {a b c : ScanState} (h1 : ScanExt a b) (h2 : ScanExt b c) :
    ScanExt a c := by
  obtain ⟨hs1, hc1, ts1, es1, ht1, hn1, he1⟩ := h1
  obtain ⟨hs2, hc2, ts2, es2, ht2, hn2, he2⟩ := h2
  refine ⟨hs2.trans hs1, hc1.trans hc2, ts1 ++ ts2, es1 ++ es2, ?_, ?_, ?_⟩
  · rw [ht2, ht1, List.append_assoc]
  · intro tok htok
    rcases List.mem_append.mp htok with h | h
    · exact hn1 tok h
    · exact hn2 tok h
  · rw [he2, he1, List.append_assoc]

namespace Scanner

/-- add_token never runs out of fuel, and on success appends exactly one
token of the requested type at the current line. -/
theorem add_token_spec (st : ScanState) (t : TokenType) (lit : Option Literal) :
    add_token st t lit ≠ .fuel ∧
      ∀ st', add_token st t lit = .ok st' →
        ∃ text, st' = { st with tokens := st.tokens ++ [⟨t, text, lit, st.line⟩] } := by
  cases h : sliceStr st.source st.start st.current with
  | none => exact ⟨by simp [add_token, h], by simp [add_token, h]⟩
  | some text =>
    refine ⟨by simp [add_token, h], ?_⟩
    intro st' h'
    simp only [add_token, h, SRes.ok.injEq] at h'
    exact ⟨text, h'.symm⟩

/-- match_char leaves the state unchanged or advances `current` by one;
everything else is untouched. -/
theorem match_char_spec (st : ScanState) (e : Char) :
    (st.match_char e).2 = st ∨
      (st.match_char e).2 = { st with current := st.current + 1 } := by
  unfold ScanState.match_char
  by_cases h : st.is_at_end ∨ ¬(st.nth st.current = e)
  · left; rw [if_pos h]
  · right; rw [if_neg h]

/-- Generic fact: a lookup-with-default draws its result from the table
values or the default. -/
theorem lookup_getD_prop {β : Type} (p : β → Prop) :
    ∀ (l : List (List Nat × β)) (k : List Nat) (d : β), p d → (∀ x ∈ l, p x.2) →
      p ((l.lookup k).getD d) := by
  intro l
  induction l with
  | nil => intro k d hd _; simpa [List.lookup] using hd
  | cons a t ih =>
    intro k d hd hl
    obtain ⟨ka, va⟩ := a
    rw [List.lookup]
    cases h : k == ka with
    | true => simpa using hl ⟨ka, va⟩ (by simp)
    | false =>
      simp only [h]
      exact ih k d hd (fun x hx => hl x (by simp [hx]))

/-- The keyword table never yields the end-of-file token type. -/
theorem keyword_ne_eof (text : List Nat) :
    ((KEYWORDS.lookup text).getD TokenType.identifier) ≠ TokenType.eof := by
  refine lookup_getD_prop (fun t => t ≠ TokenType.eof) KEYWORDS text _ (by decide) ?_
  decide

end Scanner

namespace Scanner

/-- number never runs out of fuel (given enough fuel) and, on success, only
appends one NUMBER token and advances the cursor. -/
theorem number_spec {f : Nat} {st : ScanState} (hf : st.bytes.length - st.current < f) :
    number f st ≠ .fuel ∧ ∀ st', number f st = .ok st' → ScanExt st st' := by
  obtain ⟨st1, h1⟩ := Option.isSome_iff_exists.mp (numberLoop_isSome hf)
  have h1c := numberLoop_spec h1
  subst h1c
  set d1 := ((st.bytes.drop st.current).takeWhile isNumericByte).length with hd1
  by_cases hdot : ({ st with current := st.current + d1 } : ScanState).peek = '.' ∧
      ({ st with current := st.current + d1 } : ScanState).is_digit
        ({ st with current := st.current + d1 } : ScanState).peek_next
  · have hne : ¬ ({ st with current := st.current + d1 } : ScanState).is_at_end := by
      intro hab
      have hp := hdot.1
      rw [ScanState.peek, if_pos hab] at hp
      exact absurd hp (by decide)
    have hlt : st.current + d1 < st.bytes.length := by
      simpa [ScanState.is_at_end, Nat.not_le, ScanState.bytes_def] using hne
    have hf2 : ({ st with current := st.current + d1 + 1 } : ScanState).bytes.length -
        ({ st with current := st.current + d1 + 1 } : ScanState).current < f := by
      simp only [ScanState.bytes_mk, ScanState.bytes_def] at hf hlt ⊢
      omega
    obtain ⟨st3, h3⟩ := Option.isSome_iff_exists.mp (numberLoop_isSome hf2)
    have h3c := numberLoop_spec h3
    subst h3c
    constructor
    · simp only [number, h1, if_pos hdot, h3]
      split
      · simp
      · split
        · simp
        · exact (add_token_spec _ _ _).1
    · intro st' h'
      simp only [number, h1, if_pos hdot, h3] at h'
      split at h'
      · cases h'
      · split at h'
        · cases h'
        · rename_i q hq
          obtain ⟨text2, h2⟩ := (add_token_spec _ _ _).2 st' h'
          subst h2
          refine ⟨Eq.refl _, by dsimp only; omega,
            [⟨.number, text2, some (.num q), st.line⟩], [], by simp, ?_, by simp⟩
          intro tok htok
          simp only [List.mem_singleton] at htok
          subst htok
          simp
  · have hf2 : ({ st with current := st.current + d1 } : ScanState).bytes.length -
        ({ st with current := st.current + d1 } : ScanState).current < f := by
      simp only [ScanState.bytes_mk, ScanState.bytes_def] at hf ⊢
      omega
    obtain ⟨st3, h3⟩ := Option.isSome_iff_exists.mp (numberLoop_isSome hf2)
    have h3c := numberLoop_spec h3
    subst h3c
    constructor
    · simp only [number, h1, if_neg hdot, h3]
      split
      · simp
      · split
        · simp
        · exact (add_token_spec _ _ _).1
    · intro st' h'
      simp only [number, h1, if_neg hdot, h3] at h'
      split at h'
      · cases h'
      · split at h'
        · cases h'
        · rename_i q hq
          obtain ⟨text2, h2⟩ := (add_token_spec _ _ _).2 st' h'
          subst h2
          refine ⟨Eq.refl _, by dsimp only; omega,
            [⟨.number, text2, some (.num q), st.line⟩], [], by simp, ?_, by simp⟩
          intro tok htok
          simp only [List.mem_singleton] at htok
          subst htok
          simp

end Scanner

namespace Scanner

/-- string never runs out of fuel (given enough fuel) and, on success,
either reports one unterminated-string error or appends one STRING token. -/
theorem string_spec {f : Nat} {st : ScanState} (hf : st.bytes.length - st.current < f) :
    string f st ≠ .fuel ∧ ∀ st', string f st = .ok st' → ScanExt st st' := by
  obtain ⟨st1, h1⟩ := Option.isSome_iff_exists.mp (stringLoop_isSome hf)
  obtain ⟨hs1, he1, ht1, hst1, hc1⟩ := stringLoop_spec h1
  by_cases hend : st1.is_at_end
  · constructor
    · simp [string, h1, if_pos hend]
    · intro st' h'
      simp only [string, h1, if_pos hend, SRes.ok.injEq] at h'
      subst h'
      refine ⟨hs1, hc1, [], [⟨st1.line, .empty, .unterminatedString⟩], by simp [ScanState.report, ht1],
        by simp, by simp [ScanState.report, he1]⟩
  · constructor
    · simp only [string, h1, if_neg hend]
      split
      · simp
      · exact (add_token_spec _ _ _).1
    · intro st' h'
      simp only [string, h1, if_neg hend] at h'
      split at h'
      · cases h'
      · rename_i value hsl
        obtain ⟨text2, h2⟩ := (add_token_spec _ _ _).2 st' h'
        subst h2
        refine ⟨hs1, ?_, [⟨.string, text2, some (.str value), ((st1.advance).2).line⟩], [],
          by simp [ScanState.advance, ht1], ?_, by simp [ScanState.advance, he1]⟩
        · simp only [ScanState.advance]
          omega
        · intro tok htok
          simp only [List.mem_singleton] at htok
          subst htok
          simp

/-- identifier never runs out of fuel (given enough fuel) and, on success,
appends one identifier-or-keyword token (never end-of-file). -/
theorem identifier_spec {f : Nat} {st : ScanState} (hf : st.bytes.length - st.current < f) :
    identifier f st ≠ .fuel ∧ ∀ st', identifier f st = .ok st' → ScanExt st st' := by
  obtain ⟨st1, h1⟩ := Option.isSome_iff_exists.mp (identifierLoop_isSome hf)
  obtain ⟨hs1, he1, ht1, hst1, hl1, hc1⟩ := identifierLoop_spec h1
  constructor
  · simp only [identifier, h1]
    split
    · simp
    · exact (add_token_spec _ _ _).1
  · intro st' h'
    simp only [identifier, h1] at h'
    split at h'
    · cases h'
    · rename_i text hsl
      obtain ⟨text2, h2⟩ := (add_token_spec _ _ _).2 st' h'
      subst h2
      refine ⟨hs1, hc1, [⟨(KEYWORDS.lookup text).getD .identifier, text2, none, st1.line⟩], [],
        by simp [ht1], ?_, by simp [he1]⟩
      intro tok htok
      simp only [List.mem_singleton] at htok
      subst htok
      exact keyword_ne_eof text

end Scanner

/-- Postcondition of one scan_token step starting from `st0`. -/
def STok (st0 : ScanState) (r : SRes) : Prop :=
  r ≠ .fuel ∧ ∀ st', r = .ok st' → ScanExt st0 st' ∧ st0.current < st'.current

namespace Scanner

theorem STok_ok {st0 stX : ScanState} (h : ScanExt st0 stX) (hlt : st0.current < stX.current) :
    STok st0 (.ok stX) := by
  refine ⟨by simp, ?_⟩
  intro st' h'
  cases h'
  exact ⟨h, hlt⟩

theorem STok_panic {st0 : ScanState} (m : String) : STok st0 (.panic m) := by
  refine ⟨by simp, ?_⟩
  intro st' h'
  cases h'

theorem STok_report {st0 stX : ScanState} (h : ScanExt st0 stX)
    (hlt : st0.current < stX.current) (l : Nat) (loc : ErrLoc) (m : ErrMsg) :
    STok st0 (.ok (stX.report l loc m)) := by
  refine STok_ok (h.trans ?_) (by simpa [ScanState.report] using hlt)
  exact ⟨Eq.refl _, by simp [ScanState.report], [], [⟨l, loc, m⟩], by simp [ScanState.report],
    by simp, by simp [ScanState.report]⟩

theorem STok_add_token {st0 stX : ScanState} (h : ScanExt st0 stX)
    (hlt : st0.current < stX.current) {tt : TokenType} (htt : tt ≠ TokenType.eof)
    (lit : Option Literal) : STok st0 (add_token stX tt lit) := by
  obtain ⟨hnf, hok⟩ := add_token_spec stX tt lit
  refine ⟨hnf, ?_⟩
  intro st' h'
  obtain ⟨text, h2⟩ := hok st' h'
  subst h2
  refine ⟨h.trans ⟨Eq.refl _, by simp, [⟨tt, text, lit, stX.line⟩], [], by simp, ?_, by simp⟩,
    by simpa using hlt⟩
  intro tok htok
  simp only [List.mem_singleton] at htok
  subst htok
  exact htt

theorem STok_number {f : Nat} {st0 stX : ScanState} (h : ScanExt st0 stX)
    (hlt : st0.current < stX.current) (hfu : stX.bytes.length - stX.current < f) :
    STok st0 (number f stX) := by
  obtain ⟨hnf, hok⟩ := number_spec hfu
  refine ⟨hnf, ?_⟩
  intro st' h'
  have he := hok st' h'
  exact ⟨h.trans he, Nat.lt_of_lt_of_le hlt he.2.1⟩

theorem STok_string {f : Nat} {st0 stX : ScanState} (h : ScanExt st0 stX)
    (hlt : st0.current < stX.current) (hfu : stX.bytes.length - stX.current < f) :
    STok st0 (string f stX) := by
  obtain ⟨hnf, hok⟩ := string_spec hfu
  refine ⟨hnf, ?_⟩
  intro st' h'
  have he := hok st' h'
  exact ⟨h.trans he, Nat.lt_of_lt_of_le hlt he.2.1⟩

theorem STok_identifier {f : Nat} {st0 stX : ScanState} (h : ScanExt st0 stX)
    (hlt : st0.current < stX.current) (hfu : stX.bytes.length - stX.current < f) :
    STok st0 (identifier f stX) := by
  obtain ⟨hnf, hok⟩ := identifier_spec hfu
  refine ⟨hnf, ?_⟩
  intro st' h'
  have he := hok st' h'
  exact ⟨h.trans he, Nat.lt_of_lt_of_le hlt he.2.1⟩

theorem STok_comment {f : Nat} {st0 stX : ScanState} (h : ScanExt st0 stX)
    (hlt : st0.current < stX.current) (hfu : stX.bytes.length - stX.current < f) :
    STok st0 (match commentLoop f stX with | none => SRes.fuel | some st2 => SRes.ok st2) := by
  obtain ⟨st2, h2⟩ := Option.isSome_iff_exists.mp (commentLoop_isSome hfu)
  obtain ⟨hs2, he2, ht2, hst2, hl2, hc2⟩ := commentLoop_spec h2
  rw [h2]
  refine STok_ok (h.trans ⟨hs2, hc2, [], [], by simp [ht2], by simp, by simp [he2]⟩) ?_
  omega

end Scanner

namespace Scanner

/-- match_char preserves the extension relation, the strict cursor bound and
the remaining-byte bound. -/
theorem match_char_ext {st0 stA : ScanState} (h : ScanExt st0 stA)
    (hlt : st0.current < stA.current) (e : Char) :
    ScanExt st0 ((stA.match_char e).2) ∧ st0.current < ((stA.match_char e).2).current ∧
      ((stA.match_char e).2).bytes.length - ((stA.match_char e).2).current ≤
        stA.bytes.length - stA.current := by
  rcases match_char_spec stA e with hm | hm <;> rw [hm]
  · exact ⟨h, hlt, Nat.le_refl _⟩
  · refine ⟨h.trans ⟨Eq.refl _, Nat.le_succ _, [], [], by simp, by simp, by simp⟩, ?_, ?_⟩
    · exact Nat.lt_succ_of_lt hlt
    · simp only [ScanState.bytes_mk, ScanState.bytes_def]
      omega

/-- One scan_token step: never out of fuel (for the fuel the driver passes),
and on success the state is only extended — tokens appended are never
end-of-file tokens, errors are only appended, and the cursor strictly
advances. -/
theorem scan_token_spec {f : Nat} {st0 : ScanState}
    (hne : st0.current < st0.bytes.length) (hf : st0.bytes.length - st0.current ≤ f) :
    STok st0 (scan_token f st0) := by
  have hb : ScanExt st0 ({ st0 with current := st0.current + 1 }) :=
    ⟨Eq.refl _, Nat.le_succ _, [], [], by simp, by simp, by simp⟩
  have hlt1 : st0.current < ({ st0 with current := st0.current + 1 } : ScanState).current :=
    Nat.lt_succ_self _
  have hfu : ({ st0 with current := st0.current + 1 } : ScanState).bytes.length -
      ({ st0 with current := st0.current + 1 } : ScanState).current < f := by
    simp only [ScanState.bytes_mk, ScanState.bytes_def] at hne hf ⊢
    omega
  rw [scan_token]
  simp only [ScanState.advance]
  cases hc : st0.source.get? st0.current with
  | none => exact STok_report hb hlt1 _ _ _
  | some c =>
    by_cases h01 : c = '('
    · simp only [if_pos h01, add_char_token]
      exact STok_add_token hb hlt1 (by decide) none
    by_cases h02 : c = ')'
    · simp only [if_neg h01, if_pos h02, add_char_token]
      exact STok_add_token hb hlt1 (by decide) none
    by_cases h03 : c = '{'
    · simp only [if_neg h01, if_neg h02, if_pos h03, add_char_token]
      exact STok_add_token hb hlt1 (by decide) none
    by_cases h04 : c = '}'
    · simp only [if_neg h01, if_neg h02, if_neg h03, if_pos h04, add_char_token]
      exact STok_add_token hb hlt1 (by decide) none
    by_cases h05 : c = ','
    · simp only [if_neg h01, if_neg h02, if_neg h03, if_neg h04, if_pos h05, add_char_token]
      exact STok_add_token hb hlt1 (by decide) none
    by_cases h06 : c = '.'
    · simp only [if_neg h01, if_neg h02, if_neg h03, if_neg h04, if_neg h05, if_pos h06,
        add_char_token]
      exact STok_add_token hb hlt1 (by decide) none
    by_cases h07 : c = '-'
    · simp only [if_neg h01, if_neg h02, if_neg h03, if_neg h04, if_neg h05, if_neg h06,
        if_pos h07, add_char_token]
      exact STok_add_token hb hlt1 (by decide) none
    by_cases h08 : c = '+'
    · simp only [if_neg h01, if_neg h02, if_neg h03, if_neg h04, if_neg h05, if_neg h06,
        if_neg h07, if_pos h08, add_char_token]
      exact STok_add_token hb hlt1 (by decide) none
    by_cases h09 : c = ';'
    · simp only [if_neg h01, if_neg h02, if_neg h03, if_neg h04, if_neg h05, if_neg h06,
        if_neg h07, if_neg h08, if_pos h09, add_char_token]
      exact STok_add_token hb hlt1 (by decide) none
    by_cases h10 : c = '*'
    · simp only [if_neg h01, if_neg h02, if_neg h03, if_neg h04, if_neg h05, if_neg h06,
        if_neg h07, if_neg h08, if_neg h09, if_pos h10, add_char_token]
      exact STok_add_token hb hlt1 (by decide) none
    simp only [if_neg h01, if_neg h02, if_neg h03, if_neg h04, if_neg h05, if_neg h06,
      if_neg h07, if_neg h08, if_neg h09, if_neg h10]
    by_cases h11 : c = '!'
    · simp only [if_pos h11, add_char_token]
      obtain ⟨hbB, hltB, -⟩ := match_char_ext hb hlt1 '='
      refine STok_add_token hbB hltB ?_ none
      by_cases hp : ((({ st0 with current := st0.current + 1 } : ScanState)).match_char '=').1 = true
      · simp [hp]
      · simp [hp]
    by_cases h12 : c = '='
    · simp only [if_neg h11, if_pos h12, add_char_token]
      obtain ⟨hbB, hltB, -⟩ := match_char_ext hb hlt1 '='
      refine STok_add_token hbB hltB ?_ none
      by_cases hp : ((({ st0 with current := st0.current + 1 } : ScanState)).match_char '=').1 = true
      · simp [hp]
      · simp [hp]
    by_cases h13 : c = '<'
    · simp only [if_neg h11, if_neg h12, if_pos h13, add_char_token]
      obtain ⟨hbB, hltB, -⟩ := match_char_ext hb hlt1 '='
      refine STok_add_token hbB hltB ?_ none
      by_cases hp : ((({ st0 with current := st0.current + 1 } : ScanState)).match_char '=').1 = true
      · simp [hp]
      · simp [hp]
    by_cases h14 : c = '>'
    · simp only [if_neg h11, if_neg h12, if_neg h13, if_pos h14, add_char_token]
      obtain ⟨hbB, hltB, -⟩ := match_char_ext hb hlt1 '='
      refine STok_add_token hbB hltB ?_ none
      by_cases hp : ((({ st0 with current := st0.current + 1 } : ScanState)).match_char '=').1 = true
      · simp [hp]
      · simp [hp]
    by_cases h15 : c = '/'
    · simp only [if_neg h11, if_neg h12, if_neg h13, if_neg h14, if_pos h15]
      obtain ⟨hbB, hltB, hfle⟩ := match_char_ext hb hlt1 '/'
      by_cases hp : ((({ st0 with current := st0.current + 1 } : ScanState)).match_char '/').1 = true
      · simp only [if_pos hp]
        exact STok_comment hbB hltB (Nat.lt_of_le_of_lt hfle hfu)
      · simp only [if_neg hp, add_char_token]
        exact STok_add_token hbB hltB (by decide) none
    simp only [if_neg h11, if_neg h12, if_neg h13, if_neg h14, if_neg h15]
    by_cases h16 : c = '\x0a'
    · simp only [if_pos h16]
      refine STok_ok (hb.trans ⟨Eq.refl _, by simp, [], [], by simp, by simp, by simp⟩) ?_
      exact hlt1
    by_cases h17 : c = ' ' ∨ c = '\x0d' ∨ c = '\x09'
    · simp only [if_neg h16, if_pos h17]
      exact STok_ok hb hlt1
    by_cases h18 : c = '"'
    · simp only [if_neg h16, if_neg h17, if_pos h18]
      exact STok_string hb hlt1 hfu
    simp only [if_neg h16, if_neg h17, if_neg h18]
    by_cases h19 : ({ st0 with current := st0.current + 1 } : ScanState).is_digit c
    · simp only [if_pos h19]
      exact STok_number hb hlt1 hfu
    by_cases h20 : ({ st0 with current := st0.current + 1 } : ScanState).is_alpha c
    · simp only [if_neg h19, if_pos h20]
      exact STok_identifier hb hlt1 hfu
    simp only [if_neg h19, if_neg h20]
    exact STok_report hb hlt1 _ _ _

end Scanner

namespace Scanner

/-- The scan loop: with the driver's fuel it never runs out, and it only
extends the state (appending non-EOF tokens and errors). -/
theorem scanLoop_spec :
    ∀ {f : Nat} {st : ScanState}, st.bytes.length - st.current < f →
      scanLoop f st ≠ .fuel ∧ ∀ st', scanLoop f st = .ok st' → ScanExt st st' := by
  intro f
  induction f with
  | zero => intro st h; omega
  | succ f ih =>
    intro st h
    rw [scanLoop]
    by_cases hend : st.is_at_end
    · rw [if_pos hend]
      refine ⟨by simp, ?_⟩
      intro st' h'
      cases h'
      exact ScanExt.refl st
    · rw [if_neg hend]
      have hlt : st.current < st.bytes.length := by
        simpa [ScanState.is_at_end, Nat.not_le] using hend
      have hne' : ({ st with start := st.current } : ScanState).current <
          ({ st with start := st.current } : ScanState).bytes.length := hlt
      have hf' : ({ st with start := st.current } : ScanState).bytes.length -
          ({ st with start := st.current } : ScanState).current ≤ f := by
        simp only [ScanState.bytes_mk, ScanState.bytes_def] at h ⊢
        omega
      obtain ⟨hnf, hok⟩ := scan_token_spec hne' hf'
      have hbase : ScanExt st ({ st with start := st.current } : ScanState) :=
        ⟨Eq.refl _, Nat.le_refl _, [], [], by simp, by simp, by simp⟩
      cases hr : scan_token f ({ st with start := st.current } : ScanState) with
      | ok st1 =>
        obtain ⟨hext, hcur⟩ := hok st1 hr
        have hb1 : st1.bytes = st.bytes := by
          simp only [ScanState.bytes_def, hext.1]
        have hfuel1 : st1.bytes.length - st1.current < f := by
          rw [hb1]
          simp only [ScanState.bytes_mk, ScanState.bytes_def] at h hcur ⊢
          omega
        obtain ⟨hnf1, hok1⟩ := ih hfuel1
        refine ⟨hnf1, ?_⟩
        intro st' h'
        exact (hbase.trans hext).trans (hok1 st' h')
      | panic m =>
        exact ⟨by simp, fun st' h' => by cases h'⟩
      | fuel => exact absurd hr hnf

/-- scanSource never exhausts its fuel: the supplied `scanFuel` bound is
sufficient for the whole scan. -/
theorem scanSource_ne_fuel (src : List Char) : scanSource src ≠ .fuel := by
  have h : (Scanner.new src).bytes.length - (Scanner.new src).current < scanFuel src := by
    simp [Scanner.new, scanFuel, ScanState.bytes_def]
  obtain ⟨hnf, -⟩ := scanLoop_spec h
  unfold scanSource scan_tokens
  cases hr : scanLoop (scanFuel src) (Scanner.new src) with
  | ok st' => simp
  | panic m => simp
  | fuel => exact absurd hr hnf

/-- When scanSource completes normally, the token list is a list of
non-EOF tokens followed by exactly one EOF token with empty lexeme, no
literal, and the final line number. -/
theorem scanSource_ok_spec {src : List Char} {out : ScanState}
    (h : scanSource src = .ok out) :
    ∃ ts, out.tokens = ts ++ [⟨.eof, [], none, out.line⟩] ∧
      ∀ t ∈ ts, t.token_type ≠ TokenType.eof := by
  have hfu : (Scanner.new src).bytes.length - (Scanner.new src).current < scanFuel src := by
    simp [Scanner.new, scanFuel, ScanState.bytes_def]
  obtain ⟨hnf, hok⟩ := scanLoop_spec hfu
  unfold scanSource scan_tokens at h
  cases hr : scanLoop (scanFuel src) (Scanner.new src) with
  | ok st' =>
    rw [hr] at h
    simp only [SRes.ok.injEq] at h
    subst h
    obtain ⟨hs, hc, ts, es, ht, hn, he⟩ := hok st' hr
    refine ⟨ts, ?_, hn⟩
    simp only [ht]
    simp [Scanner.new]
  | panic m => rw [hr] at h; cases h
  | fuel => exact absurd hr hnf

end Scanner

/-- Predicates agreeing on the elements give equal takeWhile results. -/
theorem takeWhile_congr_mem {p q : Nat → Bool} :
    ∀ {l : List Nat}, (∀ b ∈ l, p b = q b) → l.takeWhile p = l.takeWhile q := by
  intro l
  induction l with
  | nil => intro; rfl
  | cons a t ih =>
    intro hpq
    rw [List.takeWhile_cons, List.takeWhile_cons, hpq a (by simp),
      ih (fun b hb => hpq b (by simp [hb]))]

/-- Below `0x80` the scanner's numeric test on a peeked byte is exactly the
ASCII digit test. -/
theorem isNumericByte_ascii : ∀ b, b < 0x80 → isNumericByte b = isDigitByte b := by decide

/-- Below `0x80`, `char::from(b) = '.'` is exactly `b = 0x2E`. -/
theorem charOfNat_dot : ∀ b, b < 0x80 → ((Char.ofNat b = '.') ↔ b = 0x2E) := by decide

namespace ScanState

/-- peek reads the head of the remaining bytes. -/
theorem peek_of_drop {st : ScanState} {b : Nat} {rest : List Nat}
    (hd : st.bytes.drop st.current = b :: rest) : st.peek = Char.ofNat b := by
  have hlt : st.current < st.bytes.length := by
    by_contra hge
    rw [List.drop_eq_nil_of_le (by omega)] at hd
    cases hd
  have hcons := List.drop_eq_getElem_cons hlt
  rw [hd] at hcons
  have hb : b = st.bytes[st.current] := (List.cons.injEq _ _ _ _ ▸ hcons).1
  rw [peek, if_neg (by simp [is_at_end]; omega), nth, List.getD_eq_getElem _ _ hlt, ← hb]

/-- peek at the end of input is the NUL character. -/
theorem peek_of_drop_nil {st : ScanState} (hd : st.bytes.drop st.current = []) :
    st.peek = NULL_C := by
  have hge : st.bytes.length ≤ st.current := by
    by_contra hlt
    rw [List.drop_eq_getElem_cons (by omega)] at hd
    cases hd
  rw [peek, if_pos (by simp [is_at_end]; omega)]

/-- peek_next reads the second element of the remaining bytes. -/
theorem peek_next_of_drop {st : ScanState} {b1 b2 : Nat} {rest : List Nat}
    (hd : st.bytes.drop st.current = b1 :: b2 :: rest) : st.peek_next = Char.ofNat b2 := by
  have hlen : st.current + 1 < st.bytes.length := by
    have := congrArg List.length hd
    simp only [List.length_drop, List.length_cons] at this
    omega
  have hcons := List.drop_eq_getElem_cons (l := st.bytes) (n := st.current) (by omega)
  rw [hd] at hcons
  have htl : st.bytes.drop (st.current + 1) = b2 :: rest :=
    (List.cons.injEq _ _ _ _ ▸ hcons).2.symm
  have hcons2 := List.drop_eq_getElem_cons (l := st.bytes) (n := st.current + 1) hlen
  rw [htl] at hcons2
  have hb : b2 = st.bytes[st.current + 1] := (List.cons.injEq _ _ _ _ ▸ hcons2).1
  rw [peek_next, if_neg (by omega), nth, List.getD_eq_getElem _ _ hlen, ← hb]

/-- peek_next one byte before the end of input is the NUL character. -/
theorem peek_next_of_drop_one {st : ScanState} {b1 : Nat}
    (hd : st.bytes.drop st.current = [b1]) : st.peek_next = NULL_C := by
  have hlen : st.bytes.length = st.current + 1 := by
    have := congrArg List.length hd
    simp only [List.length_drop, List.length_cons, List.length_nil] at this
    have hle : st.current < st.bytes.length := by
      by_contra hge
      rw [List.drop_eq_nil_of_le (by omega)] at hd
      cases hd
    omega
  rw [peek_next, if_pos (by omega)]

end ScanState

/-- Modelled from the spec (section 4.1, number rule): how many bytes a
number literal occupies starting at the head of `bs` — a maximal run of
digits, then one `.` only when it is immediately followed by at least one
digit (in which case the following maximal digit run is also consumed);
a trailing `.` not followed by a digit is not consumed. -/
def specNumberSpan (bs : List Nat) : Nat :=
  let d1 := (bs.takeWhile isDigitByte).length
  match bs.drop d1 with
  | b1 :: b2 :: _ =>
    if b1 = 0x2E ∧ isDigitByte b2 then
      d1 + 1 + ((bs.drop (d1 + 1)).takeWhile isDigitByte).length
    else d1
  | _ => d1

namespace Scanner

/-- Refinement of the spec's number-consumption rule: on an all-ASCII
source, whenever Scanner::number returns normally it has advanced `current`
by exactly `specNumberSpan` of the remaining bytes. -/
theorem number_cursor_spec {f : Nat} {st st' : ScanState}
    (hascii : ∀ b ∈ st.bytes, b < 0x80)
    (h : number f st = .ok st') :
    st'.current = st.current + specNumberSpan (st.bytes.drop st.current) := by
  have hsub : ∀ b ∈ st.bytes.drop st.current, b < 0x80 :=
    fun b hb => hascii b (List.drop_subset _ _ hb)
  have hcongr1 : (st.bytes.drop st.current).takeWhile isNumericByte =
      (st.bytes.drop st.current).takeWhile isDigitByte :=
    takeWhile_congr_mem (fun b hb => isNumericByte_ascii b (hsub b hb))
  cases hr1 : numberLoop f st with
  | none => rw [number, hr1] at h; cases h
  | some st1 =>
    have h1c := numberLoop_spec hr1
    rw [hcongr1] at h1c
    set d1 := ((st.bytes.drop st.current).takeWhile isDigitByte).length with hd1eq
    subst h1c
    have hdd : st.bytes.drop (st.current + d1) = (st.bytes.drop st.current).drop d1 := by
      rw [List.drop_drop]
    have hspec : specNumberSpan (st.bytes.drop st.current) =
        match (st.bytes.drop st.current).drop d1 with
        | b1 :: b2 :: _ =>
          if b1 = 0x2E ∧ isDigitByte b2 then
            d1 + 1 + (((st.bytes.drop st.current).drop (d1 + 1)).takeWhile isDigitByte).length
          else d1
        | _ => d1 := by
      rw [specNumberSpan]
    have hdropL : ({ st with current := st.current + d1 } : ScanState).bytes.drop
        ({ st with current := st.current + d1 } : ScanState).current =
        (st.bytes.drop st.current).drop d1 := by
      simp only [ScanState.bytes_mk, ScanState.bytes_def] at hdd ⊢
      exact hdd
    cases hrest : (st.bytes.drop st.current).drop d1 with
    | nil =>
      have hpk : ({ st with current := st.current + d1 } : ScanState).peek = NULL_C :=
        ScanState.peek_of_drop_nil (by rw [hdropL, hrest])
      have hdot : ¬ (({ st with current := st.current + d1 } : ScanState).peek = '.' ∧
          ({ st with current := st.current + d1 } : ScanState).is_digit
            ({ st with current := st.current + d1 } : ScanState).peek_next = true) := by
        intro hcon
        rw [hpk] at hcon
        exact absurd hcon.1 (by decide)
      simp only [number, hr1, if_neg hdot] at h
      split at h
      · cases h
      · rename_i st3 hr3
        have h3c := numberLoop_spec hr3
        rw [hdropL, hrest] at h3c
        simp only [List.takeWhile_nil, List.length_nil, Nat.add_zero] at h3c
        subst h3c
        split at h
        · cases h
        · split at h
          · cases h
          · obtain ⟨t2, h2⟩ := (add_token_spec _ _ _).2 st' h
            subst h2
            rw [hspec, hrest]
    | cons b1 rest1 =>
      have hb1lt : b1 < 0x80 := hsub b1 (by
        have : b1 ∈ (st.bytes.drop st.current).drop d1 := by rw [hrest]; simp
        exact List.drop_subset _ _ this)
      have hpk : ({ st with current := st.current + d1 } : ScanState).peek = Char.ofNat b1 :=
        ScanState.peek_of_drop (by rw [hdropL, hrest])
      have hb1f : isDigitByte b1 = false := by
        refine takeWhile_next_false isDigitByte (st.bytes.drop st.current) b1 ?_
        rw [← hd1eq, hrest]
        simp
      cases rest1 with
      | nil =>
        have hpn : ({ st with current := st.current + d1 } : ScanState).peek_next = NULL_C :=
          ScanState.peek_next_of_drop_one (by rw [hdropL, hrest])
        have hdot : ¬ (({ st with current := st.current + d1 } : ScanState).peek = '.' ∧
            ({ st with current := st.current + d1 } : ScanState).is_digit
              ({ st with current := st.current + d1 } : ScanState).peek_next = true) := by
          intro hcon
          rw [hpn] at hcon
          have hnum : rustIsNumeric NULL_C = true := hcon.2
          exact absurd hnum (by decide)
        simp only [number, hr1, if_neg hdot] at h
        split at h
        · cases h
        · rename_i st3 hr3
          have h3c := numberLoop_spec hr3
          rw [hdropL, hrest] at h3c
          rw [show List.takeWhile isNumericByte [b1] = [] by
            simp [List.takeWhile_cons, isNumericByte_ascii b1 hb1lt, hb1f]] at h3c
          simp only [List.length_nil, Nat.add_zero] at h3c
          subst h3c
          split at h
          · cases h
          · split at h
            · cases h
            · obtain ⟨t2, h2⟩ := (add_token_spec _ _ _).2 st' h
              subst h2
              rw [hspec, hrest]
      | cons b2 rest2 =>
        have hb2lt : b2 < 0x80 := hsub b2 (by
          have : b2 ∈ (st.bytes.drop st.current).drop d1 := by rw [hrest]; simp
          exact List.drop_subset _ _ this)
        have hpn : ({ st with current := st.current + d1 } : ScanState).peek_next =
            Char.ofNat b2 :=
          ScanState.peek_next_of_drop (by rw [hdropL, hrest])
        by_cases hcond : b1 = 0x2E ∧ isDigitByte b2 = true
        · have hdot : (({ st with current := st.current + d1 } : ScanState).peek = '.' ∧
              ({ st with current := st.current + d1 } : ScanState).is_digit
                ({ st with current := st.current + d1 } : ScanState).peek_next = true) := by
            constructor
            · rw [hpk]
              exact (charOfNat_dot b1 hb1lt).mpr hcond.1
            · rw [hpn]
              show isNumericByte b2 = true
              rw [isNumericByte_ascii b2 hb2lt]
              exact hcond.2
          simp only [number, hr1, if_pos hdot] at h
          split at h
          · cases h
          · rename_i st3 hr3
            have h3c := numberLoop_spec hr3
            have hdrop3 : ({ st with current := st.current + d1 + 1 } : ScanState).bytes.drop
                ({ st with current := st.current + d1 + 1 } : ScanState).current =
                (st.bytes.drop st.current).drop (d1 + 1) := by
              simp only [ScanState.bytes_mk, ScanState.bytes_def]
              rw [List.drop_drop]
              congr 1
            rw [hdrop3] at h3c
            rw [takeWhile_congr_mem (fun b hb => isNumericByte_ascii b
              (hsub b (List.drop_subset _ _ hb)))] at h3c
            subst h3c
            split at h
            · cases h
            · split at h
              · cases h
              · obtain ⟨t2, h2⟩ := (add_token_spec _ _ _).2 st' h
                subst h2
                have hspecv : specNumberSpan (st.bytes.drop st.current) =
                    d1 + 1 + (((st.bytes.drop st.current).drop (d1 + 1)).takeWhile
                      isDigitByte).length := by
                  rw [hspec, hrest]
                  simp [hcond.1, hcond.2]
                rw [hspecv]
                simp only [ScanState.current_mk]
                omega
        · have hdot : ¬ (({ st with current := st.current + d1 } : ScanState).peek = '.' ∧
              ({ st with current := st.current + d1 } : ScanState).is_digit
                ({ st with current := st.current + d1 } : ScanState).peek_next = true) := by
            intro hcon
            refine hcond ⟨(charOfNat_dot b1 hb1lt).mp (hpk ▸ hcon.1), ?_⟩
            have := hcon.2
            rw [hpn] at this
            rw [← isNumericByte_ascii b2 hb2lt]
            exact this
          simp only [number, hr1, if_neg hdot] at h
          split at h
          · cases h
          · rename_i st3 hr3
            have h3c := numberLoop_spec hr3
            rw [hdropL, hrest] at h3c
            rw [show List.takeWhile isNumericByte (b1 :: b2 :: rest2) = [] by
              simp [List.takeWhile_cons, isNumericByte_ascii b1 hb1lt, hb1f]] at h3c
            simp only [List.length_nil, Nat.add_zero] at h3c
            subst h3c
            split at h
            · cases h
            · split at h
              · cases h
              · obtain ⟨t2, h2⟩ := (add_token_spec _ _ _).2 st' h
                subst h2
                have hspecv : specNumberSpan (st.bytes.drop st.current) = d1 := by
                  rw [hspec, hrest]
                  simp [if_neg hcond]
                rw [hspecv]

end Scanner

/-- Sample tokens used by the concrete claim instances. -/
def lparenTok : Token := ⟨.leftParen, [0x28], none, 1⟩

def numTok1 : Token := ⟨.number, [0x31], some (.num 1), 1⟩

def varTok : Token := ⟨.kwVar, strBytes "var".data, none, 1⟩

def nilTok : Token := ⟨.kwNil, strBytes "nil".data, none, 1⟩

def eofTok : Token := ⟨.eof, [], none, 1⟩

def plusTok : Token := ⟨.plus, [0x2B], none, 1⟩

def eqeqTok : Token := ⟨.equalEqual, [0x3D, 0x3D], none, 1⟩

def bangeqTok : Token := ⟨.bangEqual, [0x21, 0x3D], none, 1⟩

/-- A literal expression carrying the value `v`. -/
def litE (v : Literal) : Expression := .literal (some v)

/-- Whether two runtime values have the same variant (type). -/
def Literal.sameKind : Literal → Literal → Bool
  | .str _, .str _ => true
  | .num _, .num _ => true
  | .null, .null => true
  | .boolean _, .boolean _ => true
  | _, _ => false

/-- C1: the claim says `Parser::parse` returns the placeholder empty literal
on every internal syntax error, including a missing `)`, and never fails its
caller.  In fact, on the token stream of `"(1"` the missing-`)` path reports
"Expect ')' after expression." and runs synchronize, but then the
`.map_err(|_| self.synchronize()).unwrap()` in `Parser::primary` panics on
the mapped `Err(())`, aborting the caller.  This theorem evaluates the code
at that failing input: parse panics after recording the diagnostic. -/
theorem c1_parse_panics_on_missing_rparen :
    Parser.parse (Parser.new [lparenTok, numTok1, eofTok]) 20 =
      .panic "called Result::unwrap on an Err value"
        ⟨[lparenTok, numTok1, eofTok], 2,
         [⟨1, .atEnd, .text "Expect ')' after expression."⟩]⟩ := by decide

/-- C2: the claim says `Parser::synchronize` always terminates, stopping at
statement keywords such as `var`.  In fact the match arms for the statement
keywords are empty — they neither return nor advance — so from the state
reached while parsing `"(1 var var"` (cursor on the first `var` after the
missing-`)` report) the loop never changes state and `synchronize` diverges:
it exhausts every fuel bound, and the whole parse does too. -/
theorem c2_synchronize_diverges :
    (∀ f : Nat, Parser.synchronize
        ⟨[lparenTok, numTok1, varTok, varTok, eofTok], 2,
         [⟨1, .atLexeme (strBytes "var".data), .text "Expect ')' after expression."⟩]⟩ f =
      .fuel) ∧
    Parser.parse (Parser.new [lparenTok, numTok1, varTok, varTok, eofTok]) 50 = .fuel := by
  constructor
  · intro f
    induction f with
    | zero => rfl
    | succ n ih => exact ih
  · decide

/-- C3: the claim says Scanner and Parser append to one shared Reporter so
that `had_error` is true iff either stage recorded an error.  In fact
`Parser::new` as written in src/parser.rs builds a parser-private
`Reporter::new()` and receives no shared reporter (the two-argument call in
lox.rs cannot type-check against it).  Evaluating the pipeline on `"("`:
scanning records no error, parsing records "Expect expression." in the
parser-private reporter (so `Parser::had_error` is true), yet
`Lox::had_error` — which inspects only the shared reporter — stays false,
violating the claimed equivalence. -/
theorem c3_reporter_not_shared :
    Lox.new "(".data = some ⟨[], [lparenTok, eofTok]⟩ ∧
    Parser.parse (Parser.new [lparenTok, eofTok]) 20 =
      .ok (.literal none)
        ⟨[lparenTok, eofTok], 1, [⟨1, .atEnd, .text "Expect expression."⟩]⟩ ∧
    Parser.had_error ⟨[lparenTok, eofTok], 1, [⟨1, .atEnd, .text "Expect expression."⟩]⟩ = true ∧
    Lox.had_error ⟨[], [lparenTok, eofTok]⟩ = false := by decide

/-- C4: the claim says parsing `nil` produces a Literal whose evaluation is
a distinguished absent value distinct from every String.  The first half is
true — `nil` is folded into a Literal at parse time — but the literal the
code builds is `Literal::String("nil")`, so its evaluation is the String
value "nil", not an absent value: the code contradicts the claim (and the
spec flags this string-literal variant as incidental). -/
theorem c4_nil_parses_to_string_literal :
    Parser.parse (Parser.new [nilTok, eofTok]) 20 =
      .ok (.literal (some (.str (strBytes "nil".data)))) ⟨[nilTok, eofTok], 1, []⟩ ∧
    Interpreter.evaluate (.literal (some (.str (strBytes "nil".data)))) =
      (some (.str (strBytes "nil".data)), []) := by decide

/-- C5: the claim says `Scanner::scan_tokens` never aborts on any input.
For ordinary unexpected characters that is true (second conjunct: `$`
records an error, emits no token for it, and scanning continues), but the
char `²` (U+00B2) is `is_numeric`, so the scanner enters `number`, consumes
a slice that `f64::from_str` cannot parse, and the `.expect(...)` panics:
scanning `"²"` aborts instead of recording an error. -/
theorem c5_scanner_panics_on_superscript_two :
    scanSource "²".data = .panic "Failed to parse number from source" ∧
    scanSource "$(".data = .ok ⟨"$(".data, [⟨1, .empty, .unexpectedChar '$'⟩],
      [⟨.leftParen, [0x28], none, 1⟩, ⟨.eof, [], none, 1⟩], 1, 2, 1⟩ := by decide

/-- C6: for every input string on which the scan completes, the produced
token sequence is a list of non-EOF tokens followed by exactly one EOF
token with an empty lexeme carrying the final line number; scanning the
empty string yields exactly one EOF token at line 1. -/
theorem c6_eof_invariant :
    (scanSource "".data = .ok ⟨"".data, [], [⟨.eof, [], none, 1⟩], 0, 0, 1⟩) ∧
    ∀ (src : List Char) (out : ScanState), scanSource src = .ok out →
      ∃ ts, out.tokens = ts ++ [⟨.eof, [], none, out.line⟩] ∧
        ∀ t ∈ ts, t.token_type ≠ TokenType.eof :=
  ⟨by decide, fun _ _ h => Scanner.scanSource_ok_spec h⟩

/-- Witness for C6 at the concrete input `""`. -/
theorem c6_eof_invariant_witness :
    ∃ ts, (⟨"".data, [], [⟨.eof, [], none, 1⟩], 0, 0, 1⟩ : ScanState).tokens =
        ts ++ [⟨TokenType.eof, [], none, 1⟩] ∧
      ∀ t ∈ ts, t.token_type ≠ TokenType.eof :=
  c6_eof_invariant.2 "".data ⟨"".data, [], [⟨.eof, [], none, 1⟩], 0, 0, 1⟩ (by decide)

/-- C7: evaluating a Binary `+` yields the numeric sum when both operands
are Numbers, the concatenation when both are Strings, and for every other
pair of operand values there is no coercion: the evaluation emits exactly
one type-mismatch diagnostic naming the operator and both operand values
and produces no value.  The model's evaluator is a total function, so no
panic is possible. -/
theorem c7_plus_semantics :
    ∀ v1 v2 : Literal,
      (∀ a b : ℚ, v1 = .num a → v2 = .num b →
        Interpreter.evaluate (.binary (litE v1) plusTok (litE v2)) =
          (some (.num (a + b)), [])) ∧
      (∀ s t : List Nat, v1 = .str s → v2 = .str t →
        Interpreter.evaluate (.binary (litE v1) plusTok (litE v2)) =
          (some (.str (s ++ t)), [])) ∧
      ((∀ a b : ℚ, ¬(v1 = .num a ∧ v2 = .num b)) →
        (∀ s t : List Nat, ¬(v1 = .str s ∧ v2 = .str t)) →
        Interpreter.evaluate (.binary (litE v1) plusTok (litE v2)) =
          (none, [⟨TokenType.plus, v1, v2⟩])) := by
  intro v1 v2
  refine ⟨?_, ?_, ?_⟩
  · intro a b h1 h2
    subst h1
    subst h2
    simp [Interpreter.evaluate, litE, plusTok, Interpreter.are_compatible]
  · intro s t h1 h2
    subst h1
    subst h2
    simp [Interpreter.evaluate, litE, plusTok, Interpreter.are_compatible]
  · intro hnum hstr
    cases v1 <;> cases v2 <;>
      first
        | exact absurd ⟨rfl, rfl⟩ (hnum _ _)
        | exact absurd ⟨rfl, rfl⟩ (hstr _ _)
        | simp [Interpreter.evaluate, litE, plusTok, Interpreter.are_compatible]

/-- Witness for C7: 1 + 2 evaluates to the sum, and Number + String yields
no value with the type-mismatch diagnostic. -/
theorem c7_plus_semantics_witness :
    Interpreter.evaluate (.binary (litE (.num 1)) plusTok (litE (.num 2))) =
      (some (.num (1 + 2)), []) ∧
    Interpreter.evaluate (.binary (litE (.num 1)) plusTok (litE (.str [0x61]))) =
      (none, [⟨TokenType.plus, .num 1, .str [0x61]⟩]) :=
  ⟨(c7_plus_semantics (.num 1) (.num 2)).1 1 2 rfl rfl,
   (c7_plus_semantics (.num 1) (.str [0x61])).2.2
     (fun _ _ h => Literal.noConfusion h.2)
     (fun _ _ h => Literal.noConfusion h.1)⟩

/-- C8: evaluating Binary `==` / `!=` succeeds on every pair of operand
values of any types, using structural (decidable) equality; when the two
values have different variants, `==` yields `false` (and the evaluation is
never an error). -/
theorem c8_equality_semantics :
    ∀ v1 v2 : Literal,
      Interpreter.evaluate (.binary (litE v1) eqeqTok (litE v2)) =
        (some (.boolean (decide (v1 = v2))), []) ∧
      Interpreter.evaluate (.binary (litE v1) bangeqTok (litE v2)) =
        (some (.boolean (!decide (v1 = v2))), []) ∧
      (Literal.sameKind v1 v2 = false →
        Interpreter.evaluate (.binary (litE v1) eqeqTok (litE v2)) =
          (some (.boolean false), [])) := by
  intro v1 v2
  have h1 : Interpreter.evaluate (.binary (litE v1) eqeqTok (litE v2)) =
      (some (.boolean (decide (v1 = v2))), []) := by
    simp [Interpreter.evaluate, litE, eqeqTok, Interpreter.are_compatible]
  have h2 : Interpreter.evaluate (.binary (litE v1) bangeqTok (litE v2)) =
      (some (.boolean (!decide (v1 = v2))), []) := by
    simp [Interpreter.evaluate, litE, bangeqTok, Interpreter.are_compatible]
  refine ⟨h1, h2, ?_⟩
  intro hk
  rw [h1]
  have hne : ¬(v1 = v2) := by
    intro he
    subst he
    cases v1 <;> simp [Literal.sameKind] at hk
  simp [hne]

/-- Witness for C8: comparing a Number to a String is well-defined and
yields false. -/
theorem c8_equality_semantics_witness :
    Interpreter.evaluate (.binary (litE (.num 1)) eqeqTok (litE (.str [0x61]))) =
      (some (.boolean false), []) :=
  (c8_equality_semantics (.num 1) (.str [0x61])).2.2 (by decide)

/-- C9: number scanning consumes a maximal run of digits, then one `.` only
when a digit immediately follows (a trailing `.` is left for the next scan
as a DOT token), and parses the text as a float with leading zeros allowed:
scanning "03" yields Number 3.0, scanning ".0" yields DOT then Number 0.0,
and in general (on all-ASCII sources) Scanner::number advances the cursor by
exactly the span the spec's rule prescribes (`specNumberSpan`). -/
theorem c9_number_scanning :
    (scanSource "03".data = .ok ⟨"03".data, [],
      [⟨.number, [0x30, 0x33], some (.num 3), 1⟩, ⟨.eof, [], none, 1⟩], 0, 2, 1⟩) ∧
    (scanSource ".0".data = .ok ⟨".0".data, [],
      [⟨.dot, [0x2E], none, 1⟩, ⟨.number, [0x30], some (.num 0), 1⟩, ⟨.eof, [], none, 1⟩],
      1, 2, 1⟩) ∧
    ∀ (f : Nat) (st st' : ScanState), (∀ b ∈ st.bytes, b < 0x80) →
      Scanner.number f st = .ok st' →
      st'.current = st.current + specNumberSpan (st.bytes.drop st.current) :=
  ⟨by decide, by decide, fun _ _ _ ha h => Scanner.number_cursor_spec ha h⟩

/-- Witness for C9 at the input "03": number, entered after the digit `0`
was consumed, advances the cursor from 1 to 2 — exactly the spec span of
the remaining byte string "3". -/
theorem c9_number_scanning_witness :
    (⟨"03".data, [], [⟨.number, [0x30, 0x33], some (.num 3), 1⟩], 0, 2, 1⟩ : ScanState).current =
      (⟨"03".data, [], [], 0, 1, 1⟩ : ScanState).current +
        specNumberSpan ((⟨"03".data, [], [], 0, 1, 1⟩ : ScanState).bytes.drop
          (⟨"03".data, [], [], 0, 1, 1⟩ : ScanState).current) :=
  c9_number_scanning.2.2 3 ⟨"03".data, [], [], 0, 1, 1⟩
    ⟨"03".data, [], [⟨.number, [0x30, 0x33], some (.num 3), 1⟩], 0, 2, 1⟩
    (by decide) (by decide)

/-- C10: scanning and evaluation are deterministic and free of hidden
state.  In the embedding this is immediate, and the embedding is faithful
on this point: `Scanner::new` initializes every field of the scanner from
the source text alone, `Interpreter` has no fields at all, and the only
process-wide state either touches (the `KEYWORDS` map behind `Lazy`) is
immutable after initialization — so a second run is literally the same
function applied to the same argument. -/
theorem c10_determinism :
    (∀ src : List Char, scanSource src = scanSource src) ∧
    (∀ e : Expression, Interpreter.evaluate e = Interpreter.evaluate e) :=
  ⟨fun _ => rfl, fun _ => rfl⟩

end LoxSpec
